import Mathlib

/-!
Verification of the zig stage1 translate-c engine and its driver.

The file embeds, shallowly in Lean 4:

  * the path manipulation routines of src/os.cpp (os_is_sep, os_path_split,
    os_path_join), POSIX variant, with paths as lists of characters;
  * the command dispatch of src/main.cpp around the CmdTranslateC case
    (the post-argument-parsing checks and the translate-c invocation);
  * a model of the C translation engine itself.  The engine's
    implementation file is not part of this tree (only its interface
    translate_c.hpp, the clang bridge zig_clang.h and the caller main.cpp
    are), so the engine is modelled from the specification, definition by
    definition; each such definition carries a doc comment starting with
    "Modelled from the spec:".
-/

namespace ZigOs

/-- Separator test of os.cpp (os_is_sep), POSIX branch: only the forward
slash is a path separator. -/
def os_is_sep (c : Char) : Bool := c = '/'

/-- Path separator character appended by os_path_join (ZIG_OS_SEP_CHAR),
POSIX variant. -/
def ZIG_OS_SEP_CHAR : Char := '/'

/-- Downward scan of os_path_split (the loop at os.cpp lines 206-219):
starting at index i and walking toward 0, return the first index holding a
separator character, or none when no index up to i holds one. -/
def os_path_split_scan (p : List Char) : Nat → Option Nat
  | 0 => if os_is_sep (p.getD 0 ' ') then some 0 else none
  | i + 1 =>
    if os_is_sep (p.getD (i + 1) ' ') then some (i + 1)
    else os_path_split_scan p i

/-- Embedding of os_path_split (os.cpp lines 193-223).  The buffer is a
list of characters; the function returns the (dirname, basename) pair that
the C code writes through its out parameters.  A trailing separator on a
path of length greater than one is skipped before the scan; when no
separator is found the dirname is "." and the basename is the whole
path. -/
def os_path_split (full_path : List Char) : List Char × List Char :=
  if full_path.length ≠ 0 then
    let last_index := full_path.length - 1
    let last_char := full_path.getD last_index ' '
    if os_is_sep last_char then
      if last_index = 0 then ([last_char], [])
      else
        match os_path_split_scan full_path (last_index - 1) with
        | some i => (full_path.take (if i = 0 then 1 else i), full_path.drop (i + 1))
        | none => (['.'], full_path)
    else
      match os_path_split_scan full_path last_index with
      | some i => (full_path.take (if i = 0 then 1 else i), full_path.drop (i + 1))
      | none => (['.'], full_path)
  else (['.'], full_path)

/-- Embedding of os_path_join (os.cpp lines 255-266): empty dirname yields
the basename; otherwise the dirname, a separator unless the dirname already
ends with one, then the basename. -/
def os_path_join (dirname basename : List Char) : List Char :=
  if dirname.length = 0 then basename
  else if os_is_sep (dirname.getD (dirname.length - 1) ' ') then
    dirname ++ basename
  else
    dirname ++ [ZIG_OS_SEP_CHAR] ++ basename

/-- A path has no two adjacent separator characters. -/
def noAdjacentSeps (p : List Char) : Prop :=
  ∀ i, i + 1 < p.length →
    ¬(os_is_sep (p.getD i ' ') = true ∧ os_is_sep (p.getD (i + 1) ' ') = true)

theorem os_path_split_scan_some (p : List Char) (i : Nat) (j : Nat)
    (h : os_path_split_scan p i = some j) :
    j ≤ i ∧ os_is_sep (p.getD j ' ') = true ∧
      ∀ k, j < k → k ≤ i → os_is_sep (p.getD k ' ') = false := by
  induction i with
  | zero =>
    unfold os_path_split_scan at h
    by_cases hs : os_is_sep (p.getD 0 ' ') = true
    · rw [if_pos hs] at h
      have hj : j = 0 := (Option.some_inj.mp h).symm
      subst hj
      exact ⟨Nat.le_refl 0, hs, fun k hk1 hk2 =>
        absurd (Nat.lt_of_lt_of_le hk1 hk2) (Nat.lt_irrefl _)⟩
    · rw [if_neg hs] at h
      exact absurd h (Option.some_ne_none j).symm
  | succ i ih =>
    unfold os_path_split_scan at h
    by_cases hs : os_is_sep (p.getD (i + 1) ' ') = true
    · rw [if_pos hs] at h
      have hj : j = i + 1 := (Option.some_inj.mp h).symm
      subst hj
      refine ⟨Nat.le_refl _, hs, fun k hk1 hk2 => ?_⟩
      exact absurd (Nat.lt_of_lt_of_le hk1 hk2) (Nat.lt_irrefl _)
    · rw [if_neg hs] at h
      obtain ⟨hj, hsep, hmax⟩ := ih h
      refine ⟨Nat.le_succ_of_le hj, hsep, fun k hk1 hk2 => ?_⟩
      rcases Nat.lt_or_ge k (i + 1) with hk | hk
      · exact hmax k hk1 (Nat.lt_succ_iff.mp hk)
      · have hk3 : k = i + 1 := Nat.le_antisymm hk2 hk
        subst hk3
        exact Bool.eq_false_iff.mpr (fun hc => hs hc)

theorem os_path_split_scan_none (p : List Char) (i : Nat)
    (h : os_path_split_scan p i = none) :
    ∀ k, k ≤ i → os_is_sep (p.getD k ' ') = false := by
  induction i with
  | zero =>
    unfold os_path_split_scan at h
    by_cases hs : os_is_sep (p.getD 0 ' ') = true
    · rw [if_pos hs] at h
      exact absurd h (Option.some_ne_none 0)
    · intro k hk
      have hk0 : k = 0 := Nat.le_zero.mp hk
      subst hk0
      exact Bool.eq_false_iff.mpr (fun hc => hs hc)
  | succ i ih =>
    unfold os_path_split_scan at h
    by_cases hs : os_is_sep (p.getD (i + 1) ' ') = true
    · rw [if_pos hs] at h
      exact absurd h (Option.some_ne_none _)
    · rw [if_neg hs] at h
      intro k hk
      rcases Nat.lt_or_ge k (i + 1) with hk2 | hk2
      · exact ih h k (Nat.lt_succ_iff.mp hk2)
      · have hk3 : k = i + 1 := Nat.le_antisymm hk hk2
        subst hk3
        exact Bool.eq_false_iff.mpr (fun hc => hs hc)

theorem getD_take_of_lt (l : List Char) (m n : Nat) (d : Char) (h : m < n) :
    (l.take n).getD m d = l.getD m d := by
  simp [List.getD]
  rw [List.getElem?_take, if_pos h]

theorem os_is_sep_char (c : Char) (h : os_is_sep c = true) : c = '/' := by
  simpa [os_is_sep] using h

/-- C9: for every non-empty path that does not end with a separator,
contains at least one separator and has no two adjacent separators,
os_path_join applied to the dirname and basename produced by os_path_split
recovers the original path; and for a path with no separator at all,
os_path_split yields dirname "." and basename equal to the whole path. -/
theorem os_path_split_join_roundtrip (p : List Char) :
    (p.length ≠ 0 →
     os_is_sep (p.getD (p.length - 1) ' ') = false →
     (∃ k, k < p.length ∧ os_is_sep (p.getD k ' ') = true) →
     noAdjacentSeps p →
     os_path_join (os_path_split p).1 (os_path_split p).2 = p) ∧
    ((∀ k, k < p.length → os_is_sep (p.getD k ' ') = false) →
     os_path_split p = (['.'], p)) := by
  constructor
  · intro hne hlast hsep hadj
    have hlast' : ¬(os_is_sep (p.getD (p.length - 1) ' ') = true) := by
      rw [hlast]; exact Bool.false_ne_true
    unfold os_path_split
    rw [if_pos hne, if_neg hlast']
    rcases hscan : os_path_split_scan p (p.length - 1) with _ | j
    · exfalso
      obtain ⟨k, hk, hksep⟩ := hsep
      have hk2 : k ≤ p.length - 1 := by omega
      have := os_path_split_scan_none p (p.length - 1) hscan k hk2
      rw [this] at hksep
      exact Bool.false_ne_true hksep
    · obtain ⟨hj_le, hj_sep, _⟩ := os_path_split_scan_some p (p.length - 1) j hscan
      have hjlt : j < p.length := by omega
      have hj_ne : j ≠ p.length - 1 := by
        intro hc; rw [hc] at hj_sep; rw [hlast] at hj_sep
        exact Bool.false_ne_true hj_sep
      have hj1lt : j + 1 < p.length := by omega
      have hpj : p.getD j ' ' = '/' := os_is_sep_char _ hj_sep
      by_cases hj0 : j = 0
      · subst hj0
        show os_path_join (p.take 1) (p.drop 1) = p
        unfold os_path_join
        have hlen1 : (p.take 1).length = 1 := by
          simp [List.length_take]; omega
        rw [if_neg (by rw [hlen1]; exact one_ne_zero)]
        have hd0 : (p.take 1).getD (1 - 1) ' ' = p.getD 0 ' ' :=
          getD_take_of_lt p 0 1 ' ' Nat.one_pos
        rw [hlen1, if_pos (by rw [hd0]; exact hj_sep)]
        exact List.take_append_drop 1 p
      · show os_path_join (p.take (if j = 0 then 1 else j)) (p.drop (j + 1)) = p
        rw [if_neg hj0]
        unfold os_path_join
        have hjpos : 0 < j := Nat.pos_of_ne_zero hj0
        have hlenj : (p.take j).length = j := by
          simp [List.length_take]; omega
        rw [if_neg (by rw [hlenj]; omega)]
        have hdprev : (p.take j).getD (j - 1) ' ' = p.getD (j - 1) ' ' :=
          getD_take_of_lt p (j - 1) j ' ' (by omega)
        have hprev_not : os_is_sep (p.getD (j - 1) ' ') = false := by
          by_contra hc
          have hc' : os_is_sep (p.getD (j - 1) ' ') = true := by
            cases hb : os_is_sep (p.getD (j - 1) ' ')
            · exact absurd hb hc
            · rfl
          have hadj' := hadj (j - 1) (by omega)
          rw [Nat.sub_add_cancel hjpos] at hadj'
          exact hadj' ⟨hc', hj_sep⟩
        rw [hlenj, if_neg (by rw [hdprev, hprev_not]; exact Bool.false_ne_true)]
        have hdrop : p.drop j = p[j] :: p.drop (j + 1) := List.drop_eq_getElem_cons hjlt
        have hpj' : p[j] = '/' := by
          rw [← List.getD_eq_getElem p ' ' hjlt]; exact hpj
        calc p.take j ++ [ZIG_OS_SEP_CHAR] ++ p.drop (j + 1)
            = p.take j ++ (p[j] :: p.drop (j + 1)) := by
              rw [hpj']; simp [ZIG_OS_SEP_CHAR]
          _ = p.take j ++ p.drop j := by rw [hdrop]
          _ = p := List.take_append_drop j p
  · intro hnosep
    unfold os_path_split
    by_cases hne : p.length ≠ 0
    · have hlast : ¬(os_is_sep (p.getD (p.length - 1) ' ') = true) := by
        rw [hnosep (p.length - 1) (by omega)]; exact Bool.false_ne_true
      rw [if_pos hne, if_neg hlast]
      rcases hscan : os_path_split_scan p (p.length - 1) with _ | j
      · rfl
      · exfalso
        obtain ⟨hj_le, hj_sep, _⟩ := os_path_split_scan_some p (p.length - 1) j hscan
        rw [hnosep j (by omega)] at hj_sep
        exact Bool.false_ne_true hj_sep
    · rw [if_neg hne]

/-- Witness for the roundtrip theorem: the path "a/b" splits into "a" and
"b" and joins back to "a/b", while "ab" splits into "." and "ab". -/
theorem os_path_split_join_roundtrip_witness :
    os_path_join (os_path_split ['a', '/', 'b']).1 (os_path_split ['a', '/', 'b']).2 =
      ['a', '/', 'b'] ∧
    os_path_split ['a', 'b'] = (['.'], ['a', 'b']) := by
  constructor
  · refine (os_path_split_join_roundtrip ['a', '/', 'b']).1 (by decide) (by decide)
      ⟨1, by decide⟩ ?_
    intro i hi
    have h2 : i < 2 := by simp [List.length] at hi; omega
    interval_cases i <;> decide
  · refine (os_path_split_join_roundtrip ['a', 'b']).2 ?_
    intro k hk
    have h2 : k < 2 := by simp [List.length] at hk; omega
    interval_cases k <;> decide

end ZigOs

namespace TranslateC

/-!
The translation engine proper (the implementation behind parse_h_file of
translate_c.hpp) is not part of this source tree; only its interface, the
clang bridge declarations of zig_clang.h and the caller in main.cpp are.
The definitions below therefore model the engine from the specification.
-/

/-- Primitive C type kinds as enumerated by the front end builtin types. -/
inductive CPrim
  | cVoid | cBool | cChar | cSChar | cUChar | cShort | cUShort | cInt | cUInt
  | cLong | cULong | cLongLong | cULongLong | cFloat | cDouble
deriving DecidableEq, Repr

/-- Modelled from the spec: canonical C types as supplied by the front end
(§6): primitives, qualified pointers, fixed/incomplete arrays, records and
enums identified by their canonical-declaration identity (a stable key,
here a natural number), and function types with parameter list, return
type and variadic flag. -/
inductive CTy
  | prim (p : CPrim)
  | ptr (pointee : CTy) (isConst : Bool) (isVolatile : Bool)
  | arr (elem : CTy) (size : Nat)
  | incompleteArr (elem : CTy)
  | record (canonId : Nat)
  | enumTy (canonId : Nat)
  | fn (params : List CTy) (ret : CTy) (variadic : Bool)

mutual

/-- Structural equality test on canonical C types, used as the type cache
key comparison (canonical identity, not syntactic spelling). -/
def ctyBeq : CTy → CTy → Bool
  | .prim a, .prim b => a = b
  | .ptr t1 c1 v1, .ptr t2 c2 v2 => ctyBeq t1 t2 && c1 = c2 && v1 = v2
  | .arr e1 n1, .arr e2 n2 => ctyBeq e1 e2 && n1 = n2
  | .incompleteArr e1, .incompleteArr e2 => ctyBeq e1 e2
  | .record i, .record j => i = j
  | .enumTy i, .enumTy j => i = j
  | .fn ps1 r1 v1, .fn ps2 r2 v2 => ctyBeqList ps1 ps2 && ctyBeq r1 r2 && v1 = v2
  | _, _ => false

/-- Pointwise ctyBeq on parameter lists. -/
def ctyBeqList : List CTy → List CTy → Bool
  | [], [] => true
  | a :: as, b :: bs => ctyBeq a b && ctyBeqList as bs
  | _, _ => false

end

mutual

theorem ctyBeq_refl : ∀ t : CTy, ctyBeq t t = true
  | .prim _ => by simp [ctyBeq]
  | .ptr t _ _ => by simp [ctyBeq, ctyBeq_refl t]
  | .arr e _ => by simp [ctyBeq, ctyBeq_refl e]
  | .incompleteArr e => by simp [ctyBeq, ctyBeq_refl e]
  | .record _ => by simp [ctyBeq]
  | .enumTy _ => by simp [ctyBeq]
  | .fn ps r _ => by simp [ctyBeq, ctyBeq_refl r, ctyBeqList_refl ps]

theorem ctyBeqList_refl : ∀ ts : List CTy, ctyBeqList ts ts = true
  | [] => by simp [ctyBeqList]
  | t :: ts => by simp [ctyBeqList, ctyBeq_refl t, ctyBeqList_refl ts]

end

theorem ctyBeq_record_iff (id : Nat) (t : CTy) :
    ctyBeq (.record id) t = true ↔ t = .record id := by
  cases t <;> simp [ctyBeq] <;> try exact fun h => h.symm
  constructor
  · intro h; rw [h]
  · intro h; cases h; rfl

theorem ctyBeq_enumTy_iff (id : Nat) (t : CTy) :
    ctyBeq (.enumTy id) t = true ↔ t = .enumTy id := by
  cases t <;> simp [ctyBeq] <;> try exact fun h => h.symm
  constructor
  · intro h; rw [h]
  · intro h; cases h; rfl

/-- Modelled from the spec: TranslatedType (§3).  Each node is exclusively
owned by the type cache arena; other nodes reference it by a non-owning
handle, here the node's index in the arena, so that record types may be
mutually recursive through pointer indirection. -/
inductive TTy
  | primTy (p : CPrim)
  | ptrTy (pointee : Nat) (isConst : Bool) (isVolatile : Bool)
  | arrTy (elem : Nat) (size : Nat)
  | incompleteArrTy (elem : Nat)
  | recordTy (canonId : Nat) (fields : List (String × Nat))
  | enumDefTy (canonId : Nat) (underlying : Nat)
  | fnTy (params : List Nat) (ret : Nat) (variadic : Bool)
  | placeholderTy (canonId : Nat)
deriving DecidableEq, Repr

/-- Modelled from the spec: one statement slot of a translated function
body — either an ordinarily translated statement or the placeholder stub
left behind for an unsupported construct. -/
inductive TStmtK
  | translatedStmt
  | placeholderStub (desc : String)
deriving DecidableEq, Repr

/-- Modelled from the spec: a construct inside a function body, abstracted
to whether the statement translator supports it; an unsupported construct
carries a description for the diagnostic. -/
inductive CConstruct
  | supported
  | unsupportedConstruct (desc : String)
deriving DecidableEq, Repr

/-- Modelled from the spec: the replacement expression of a macro once
the front end has parsed it as a single expression: integer literals,
arithmetic, references to formal parameters by position, calls by name,
external object identifiers, and non-expression builtins such as
the line-number builtin. -/
inductive MacExpr
  | litE (v : Int)
  | addE (a b : MacExpr)
  | mulE (a b : MacExpr)
  | paramRef (i : Nat)
  | identRef (iname : String)
  | callE (fname : String) (args : List MacExpr)
  | builtinLine

/-- Modelled from the spec: TranslatedDecl (§3) — the emitted top-level
declarations: record/enum type definitions (referencing their arena
handle), functions, global variables, and macro-derived constant and
function declarations. -/
inductive ODecl
  | recordDecl (canonId : Nat) (handle : Nat)
  | enumDecl (canonId : Nat) (handle : Nat)
  | fnDecl (name : String) (body : List TStmtK)
  | varDecl (name : String) (tyHandle : Nat)
  | constDecl (name : String) (value : Int)
  | fnMacroDecl (name : String) (params : List String) (mbody : MacExpr)

/-- Modelled from the spec: the per-tag declaration state machine
Unseen → ForwardDeclared → Defined (§4.5); Unseen is represented by
absence from the table. -/
inductive TagState
  | forwardDeclared (handle : Nat)
  | definedTag (handle : Nat)
deriving DecidableEq, Repr

/-- Modelled from the spec: TranslationContext (§3) — type cache keyed by
canonical type, node arena, tag state table, pending forward declarations,
ordered diagnostics, ordered output declarations, and the anonymous-name
counter. -/
structure TransCtx where
  cache : List (CTy × Nat)
  arena : List TTy
  tags : List (Nat × TagState)
  pending : List Nat
  outputDecls : List ODecl
  diagnostics : List String
  anonCounter : Nat

/-- Head-first association lookup in the type cache, comparing canonical
type identities. -/
def lookupCache : List (CTy × Nat) → CTy → Option Nat
  | [], _ => none
  | (k, h) :: rest, t => if ctyBeq t k then some h else lookupCache rest t

/-- Head-first association lookup in the tag state table. -/
def lookupTag : List (Nat × TagState) → Nat → Option TagState
  | [], _ => none
  | (k, s) :: rest, id => if id = k then some s else lookupTag rest id

/-- Allocate a fresh non-tag node in the arena and memoize it in the type
cache under its canonical key. -/
def allocNode (ctx : TransCtx) (key : CTy) (node : TTy) : Nat × TransCtx :=
  let h := ctx.arena.length
  (h, { ctx with arena := ctx.arena ++ [node], cache := (key, h) :: ctx.cache })

/-- Modelled from the spec: on first sight of a record/enum tag the
registry allocates an opaque placeholder node, registers it in the cache
and tag table as ForwardDeclared, queues it in pending_forward_decls and
emits its (single) output declaration, hoisted before first use. -/
def allocTagPlaceholder (ctx : TransCtx) (key : CTy) (id : Nat) (isRec : Bool) :
    Nat × TransCtx :=
  let h := ctx.arena.length
  (h, { ctx with
        arena := ctx.arena ++ [.placeholderTy id],
        cache := (key, h) :: ctx.cache,
        tags := (id, .forwardDeclared h) :: ctx.tags,
        pending := id :: ctx.pending,
        outputDecls := ctx.outputDecls ++
          [if isRec then .recordDecl id h else .enumDecl id h] })

mutual

/-- Modelled from the spec: translate_type (§4.1) — looks up the type
cache by the canonical identity; on a hit returns the memoized handle
with the context untouched, on a miss recursively translates the
component types, allocates the node and memoizes it.  Record/enum types
seen for the first time become opaque placeholder handles. -/
def translate_type : CTy → TransCtx → Nat × TransCtx
  | .prim p, ctx =>
    match lookupCache ctx.cache (.prim p) with
    | some h => (h, ctx)
    | none => allocNode ctx (.prim p) (.primTy p)
  | .ptr pt c v, ctx =>
    match lookupCache ctx.cache (.ptr pt c v) with
    | some h => (h, ctx)
    | none =>
      let r := translate_type pt ctx
      allocNode r.2 (.ptr pt c v) (.ptrTy r.1 c v)
  | .arr e n, ctx =>
    match lookupCache ctx.cache (.arr e n) with
    | some h => (h, ctx)
    | none =>
      let r := translate_type e ctx
      allocNode r.2 (.arr e n) (.arrTy r.1 n)
  | .incompleteArr e, ctx =>
    match lookupCache ctx.cache (.incompleteArr e) with
    | some h => (h, ctx)
    | none =>
      let r := translate_type e ctx
      allocNode r.2 (.incompleteArr e) (.incompleteArrTy r.1)
  | .record id, ctx =>
    match lookupCache ctx.cache (.record id) with
    | some h => (h, ctx)
    | none => allocTagPlaceholder ctx (.record id) id true
  | .enumTy id, ctx =>
    match lookupCache ctx.cache (.enumTy id) with
    | some h => (h, ctx)
    | none => allocTagPlaceholder ctx (.enumTy id) id false
  | .fn ps ret va, ctx =>
    match lookupCache ctx.cache (.fn ps ret va) with
    | some h => (h, ctx)
    | none =>
      let r1 := translateTypeList ps ctx
      let r2 := translate_type ret r1.2
      allocNode r2.2 (.fn ps ret va) (.fnTy r1.1 r2.1 va)

/-- Translate a parameter type list left to right, threading the
context. -/
def translateTypeList : List CTy → TransCtx → List Nat × TransCtx
  | [], ctx => ([], ctx)
  | t :: ts, ctx =>
    let r := translate_type t ctx
    let rs := translateTypeList ts r.2
    (r.1 :: rs.1, rs.2)

end

theorem translate_type_hit (t : CTy) (ctx : TransCtx) (h : Nat)
    (hl : lookupCache ctx.cache t = some h) :
    translate_type t ctx = (h, ctx) := by
  cases t <;> rw [translate_type] <;> rw [hl]

theorem translate_type_cache_lookup (t : CTy) (ctx : TransCtx) :
    lookupCache (translate_type t ctx).2.cache t = some (translate_type t ctx).1 := by
  rcases hl : lookupCache ctx.cache t with _ | h
  · cases t <;> rw [translate_type] <;> rw [hl] <;>
      simp [allocNode, allocTagPlaceholder, lookupCache, ctyBeq_refl]
  · rw [translate_type_hit t ctx h hl]
    simpa using hl

/-- C2: translating the same canonical C type twice within one unit is
idempotent: the second translate_type call with the same canonical type
returns the identical handle and leaves the whole context — in particular
the emitted output declarations — unchanged, for every type category. -/
theorem translate_type_idempotent (t : CTy) (ctx : TransCtx) :
    translate_type t (translate_type t ctx).2 = translate_type t ctx ∧
    (translate_type t (translate_type t ctx).2).1 = (translate_type t ctx).1 ∧
    (translate_type t (translate_type t ctx).2).2.outputDecls =
      (translate_type t ctx).2.outputDecls := by
  have hsecond : translate_type t (translate_type t ctx).2 =
      ((translate_type t ctx).1, (translate_type t ctx).2) :=
    translate_type_hit t (translate_type t ctx).2 (translate_type t ctx).1
      (translate_type_cache_lookup t ctx)
  refine ⟨?_, ?_, ?_⟩ <;> rw [hsecond]

/-- Modelled from the spec: statement translation over a function body
(§4.4, §7): every supported construct maps to a translated statement,
every unsupported construct degrades to a placeholder stub at its site
plus one diagnostic, so translation of the surrounding declaration
continues. -/
def translateConstructs : List CConstruct → List TStmtK × List String
  | [] => ([], [])
  | .supported :: cs =>
    let r := translateConstructs cs
    (.translatedStmt :: r.1, r.2)
  | .unsupportedConstruct d :: cs =>
    let r := translateConstructs cs
    (.placeholderStub d :: r.1, ("unable to translate: " ++ d) :: r.2)

/-- Modelled from the spec: a top-level C declaration as delivered by the
front end, tagged with a declaration kind and canonical-declaration
identity: record forward declarations and definitions, function
definitions with their body of constructs, and global variables. -/
inductive CDecl
  | recordForward (canonId : Nat)
  | recordDef (canonId : Nat) (fields : List (String × CTy))
  | fnDef (fname : String) (body : List CConstruct)
  | varDef (vname : String) (ty : CTy)

/-- Translate the field types of a record definition left to right,
threading the context. -/
def translateFieldList : List (String × CTy) → TransCtx → List (String × Nat) × TransCtx
  | [], ctx => ([], ctx)
  | (fname, fty) :: fs, ctx =>
    let r := translate_type fty ctx
    let rs := translateFieldList fs r.2
    ((fname, r.1) :: rs.1, rs.2)

/-- Modelled from the spec: the Declaration Orchestrator's per-declaration
step (§4.5): a record forward declaration goes through the type registry
(a no-op when the canonical identity is already cached); a record
definition backpatches the placeholder node in place and moves the tag to
Defined, while a second definition of an already Defined canonical
identity is a no-op; a function definition emits exactly one output
declaration plus one diagnostic per unsupported construct in its body; a
global variable translates its type and emits one declaration. -/
def processDecl (ctx : TransCtx) : CDecl → TransCtx
  | .recordForward id => (translate_type (.record id) ctx).2
  | .recordDef id fields =>
    match lookupTag ctx.tags id with
    | some (.definedTag _) => ctx
    | _ =>
      let r := translate_type (.record id) ctx
      let rf := translateFieldList fields r.2
      { rf.2 with
        arena := rf.2.arena.set r.1 (.recordTy id rf.1),
        tags := (id, .definedTag r.1) :: rf.2.tags,
        pending := rf.2.pending.erase id }
  | .fnDef fname body =>
    let tb := translateConstructs body
    { ctx with
      outputDecls := ctx.outputDecls ++ [.fnDecl fname tb.1],
      diagnostics := ctx.diagnostics ++ tb.2 }
  | .varDef vname ty =>
    let r := translate_type ty ctx
    { r.2 with outputDecls := r.2.outputDecls ++ [.varDecl vname r.1] }

/-- Modelled from the spec: the front end constant-evaluation service
(§6, the EvaluateAsConstantExpr entry point of zig_clang.h): returns the
fully evaluated value of a constant expression, or none when the
expression is not fully constant-evaluable without external
identifiers. -/
def constEval : MacExpr → Option Int
  | .litE v => some v
  | .addE a b =>
    match constEval a, constEval b with
    | some x, some y => some (x + y)
    | _, _ => none
  | .mulE a b =>
    match constEval a, constEval b with
    | some x, some y => some (x * y)
    | _, _ => none
  | .paramRef _ => none
  | .identRef _ => none
  | .callE _ _ => none
  | .builtinLine => none

mutual

/-- Modelled from the spec: a function-like macro body is translatable
only when it reduces to a direct expression over its formal parameters
used as opaque identifiers — literals, arithmetic and calls are allowed;
non-expression builtins and external object identifiers are not. -/
def macBodyOk (n : Nat) : MacExpr → Bool
  | .litE _ => true
  | .addE a b => macBodyOk n a && macBodyOk n b
  | .mulE a b => macBodyOk n a && macBodyOk n b
  | .paramRef i => i < n
  | .identRef _ => false
  | .callE _ args => macBodyOkList n args
  | .builtinLine => false

/-- Pointwise macBodyOk over call arguments. -/
def macBodyOkList (n : Nat) : List MacExpr → Bool
  | [] => true
  | a :: as => macBodyOk n a && macBodyOkList n as

end

/-- Modelled from the spec: a preprocessor macro definition record as seen
through the front end (the MacroDefinitionRecord accessors of
zig_clang.h): its name, its formal parameter list when function-like, and
its replacement parsed as a single expression when that parse
succeeds. -/
structure MacroDef where
  mname : String
  mparams : Option (List String)
  mbody : Option MacExpr

/-- Modelled from the spec: the Macro Evaluator (§4.2): an object-like
macro whose replacement is a fully constant-evaluable expression becomes
a constant declaration carrying the evaluated value; a function-like
macro whose body is a direct expression over its formals becomes a
function-like declaration; anything else is omitted from the output with
exactly one diagnostic, never a fatal error. -/
def translateMacroDef (m : MacroDef) : Option ODecl × List String :=
  match m.mparams, m.mbody with
  | none, some b =>
    match constEval b with
    | some v => (some (.constDecl m.mname v), [])
    | none => (none, ["unable to translate macro: " ++ m.mname])
  | some ps, some b =>
    if macBodyOk ps.length b then (some (.fnMacroDecl m.mname ps b), [])
    else (none, ["unable to translate macro: " ++ m.mname])
  | _, none => (none, ["unable to translate macro: " ++ m.mname])

/-- Append a macro translation's output declaration (when any) and its
diagnostics to the context. -/
def processMacroDef (ctx : TransCtx) (m : MacroDef) : TransCtx :=
  let r := translateMacroDef m
  { ctx with
    outputDecls := ctx.outputDecls ++ r.1.toList,
    diagnostics := ctx.diagnostics ++ r.2 }

/-- Modelled from the spec: one parsed C translation unit as delivered by
the front end (§6): the ordered top-level declarations and the
preprocessor macro definition records. -/
structure CUnit where
  decls : List CDecl
  macroDefs : List MacroDef

/-- The empty translation context owned by one translation run. -/
def initCtx : TransCtx := ⟨[], [], [], [], [], [], 0⟩

/-- Modelled from the spec: translate_unit (§4.5): iterates the top-level
declarations in source order, then translates macros after all other
top-level declarations; the outputDecls and diagnostics fields of the
resulting context are the engine's output pair. -/
def translate_unit (u : CUnit) : TransCtx :=
  u.macroDefs.foldl processMacroDef (u.decls.foldl processDecl initCtx)

/-- Embedding of the TranslateMode enumeration of translate_c.hpp
(lines 14-17). -/
inductive TranslateMode
  | translateModeImport
  | translateModeTranslate
deriving DecidableEq, Repr

/-- Modelled from the spec: parse_h_file (translate_c.hpp lines 19-22):
the front end loader (the LoadFromCommandLine entry point of zig_clang.h,
which can return null) may fail to produce an AST, which is fatal and
surfaced immediately, before any declaration is translated; otherwise the
whole unit is translated identically in both modes. -/
def parse_h_file (loaded : Option CUnit) (_mode : TranslateMode) :
    Except String TransCtx :=
  match loaded with
  | none => .error "unable to parse C file: the front end produced no AST"
  | some u => .ok (translate_unit u)

/-- Modelled from the spec: the downstream rendering boundary (§6): import
mode wraps the declarations for programmatic consumption, translate mode
for direct textual rendering; the distinction lives entirely outside the
translation pipeline. -/
inductive RenderedOutput
  | forInlineUse (decls : List ODecl) (diags : List String)
  | forTextualUse (decls : List ODecl) (diags : List String)

/-- Dispatch of the mode flag at the rendering boundary. -/
def renderOutput (mode : TranslateMode) (ctx : TransCtx) : RenderedOutput :=
  match mode with
  | .translateModeImport => .forInlineUse ctx.outputDecls ctx.diagnostics
  | .translateModeTranslate => .forTextualUse ctx.outputDecls ctx.diagnostics

/-- Subset of the Cmd enumeration of main.cpp (line 238) covered by the
dispatch block at lines 1108-1130. -/
inductive Cmd
  | cmdBuild | cmdRun | cmdTranslateC | cmdTest
deriving DecidableEq, Repr

/-- EmitFileType selection of main.cpp: binary is the default; the other
two are chosen by the --emit option. -/
inductive EmitFileType
  | emitBinary | emitAssembly | emitLLVMIr
deriving DecidableEq, Repr

/-- Outcome of the embedded slice of main: a usage error (message printed
to stderr, then print_error_usage, exiting EXIT_FAILURE), a fatal
translation error, a completed translate-c run (exiting EXIT_SUCCESS no
matter how many diagnostics were produced), or dispatch to a command
outside the modelled slice. -/
inductive MainResult
  | usageError (msg : String)
  | fatalError (msg : String)
  | translated (outputs : List ODecl) (diags : List String)
  | otherCommand

/-- Process exit status of the embedded slice of main: EXIT_FAILURE is 1,
EXIT_SUCCESS is 0. -/
def exitCode : MainResult → Nat
  | .usageError _ => 1
  | .fatalError _ => 1
  | .translated _ _ => 0
  | .otherCommand => 0

/-- Whether the run constructed translation state and ran the translation
pipeline. -/
def ranTranslation : MainResult → Bool
  | .translated _ _ => true
  | _ => false

/-- Embedding of the translate-c-relevant slice of main (main.cpp): the
post-parse check at lines 1063-1065 (an --emit type other than binary with
no input file), the per-command checks at lines 1112-1130, and the
CmdTranslateC branch at lines 1333-1337, which runs translation and then
always exits successfully.  The loaded argument stands for the front
end's parse result for the input file; it is consumed only after every
argument check has passed. -/
def mainDispatch (cmd : Cmd) (in_file : Option String) (emit : EmitFileType)
    (objectsLen cSourceFilesLen : Nat) (loaded : Option CUnit) : MainResult :=
  if emit ≠ .emitBinary ∧ in_file = none then
    .usageError "A root source file is required when using `--emit asm` or `--emit llvm-ir`"
  else if cmd = .cmdBuild ∧ in_file = none ∧ objectsLen = 0 ∧ cSourceFilesLen = 0 then
    .usageError "Expected at least one of these things: * Zig root source file argument * --object argument * --c-source argument"
  else if (cmd = .cmdTranslateC ∨ cmd = .cmdTest ∨ cmd = .cmdRun) ∧ in_file = none then
    .usageError "Expected source file argument."
  else if cmd = .cmdRun ∧ emit ≠ .emitBinary then
    .usageError "Cannot run non-executable file."
  else if cmd = .cmdTranslateC then
    match parse_h_file loaded .translateModeTranslate with
    | .error e => .fatalError e
    | .ok ctx => .translated ctx.outputDecls ctx.diagnostics
  else .otherCommand

/-- Number of unsupported constructs in a function body. -/
def unsupportedCountBody (body : List CConstruct) : Nat :=
  body.countP fun c =>
    match c with
    | .unsupportedConstruct _ => true
    | .supported => false

/-- Number of unsupported constructs inside one top-level declaration. -/
def unsupportedCountDecl : CDecl → Nat
  | .fnDef _ body => unsupportedCountBody body
  | _ => 0

/-- Total number of unsupported constructs in a declaration list. -/
def totalUnsupported (ds : List CDecl) : Nat :=
  (ds.map unsupportedCountDecl).sum

/-- Whether a top-level declaration is a function definition. -/
def isFnDef : CDecl → Bool
  | .fnDef _ _ => true
  | _ => false

/-- Number of placeholder stubs in a translated body. -/
def stubCountBody (b : List TStmtK) : Nat :=
  b.countP fun s =>
    match s with
    | .placeholderStub _ => true
    | .translatedStmt => false

/-- Number of placeholder stubs across all emitted declarations. -/
def stubCount (ds : List ODecl) : Nat :=
  (ds.map fun d =>
    match d with
    | .fnDecl _ b => stubCountBody b
    | _ => 0).sum

theorem translateConstructs_diag_length (body : List CConstruct) :
    (translateConstructs body).2.length = unsupportedCountBody body := by
  induction body with
  | nil => rfl
  | cons c cs ih =>
    cases c <;>
      simp [translateConstructs, unsupportedCountBody, List.countP_cons] at * <;>
      omega

theorem translateConstructs_stub_count (body : List CConstruct) :
    stubCountBody (translateConstructs body).1 = unsupportedCountBody body := by
  induction body with
  | nil => rfl
  | cons c cs ih =>
    cases c <;>
      simp [translateConstructs, unsupportedCountBody, stubCountBody,
        List.countP_cons] at * <;>
      omega

theorem stubCount_append (a b : List ODecl) :
    stubCount (a ++ b) = stubCount a + stubCount b := by
  simp [stubCount]

theorem stubCount_fnDecl_singleton (n : String) (b : List TStmtK) :
    stubCount [.fnDecl n b] = stubCountBody b := by
  simp [stubCount, stubCountBody]

theorem processDecls_fnOnly (ds : List CDecl) (ctx : TransCtx)
    (h : ∀ d ∈ ds, isFnDef d = true) :
    (ds.foldl processDecl ctx).outputDecls.length =
      ctx.outputDecls.length + ds.length ∧
    (ds.foldl processDecl ctx).diagnostics.length =
      ctx.diagnostics.length + totalUnsupported ds ∧
    stubCount (ds.foldl processDecl ctx).outputDecls =
      stubCount ctx.outputDecls + totalUnsupported ds := by
  induction ds generalizing ctx with
  | nil => simp [totalUnsupported]
  | cons d ds ih =>
    cases d with
    | fnDef fname body =>
      obtain ⟨h1, h2, h3⟩ := ih (processDecl ctx (.fnDef fname body))
        (fun d hd => h d (List.mem_cons_of_mem _ hd))
      simp only [processDecl] at h1 h2 h3
      simp only [List.foldl_cons, processDecl, totalUnsupported, List.map_cons,
        List.sum_cons, unsupportedCountDecl, List.length_cons]
      refine ⟨?_, ?_, ?_⟩
      · rw [h1]
        simp [List.length_append]
        omega
      · rw [h2]
        simp [List.length_append, translateConstructs_diag_length, totalUnsupported]
        omega
      · rw [h3]
        rw [stubCount_append, stubCount_fnDecl_singleton,
          translateConstructs_stub_count]
        simp only [totalUnsupported]
        omega
    | recordForward id =>
      exact absurd (h _ (List.mem_cons_self _ _)) (by simp [isFnDef])
    | recordDef id fields =>
      exact absurd (h _ (List.mem_cons_self _ _)) (by simp [isFnDef])
    | varDef vname ty =>
      exact absurd (h _ (List.mem_cons_self _ _)) (by simp [isFnDef])

/-- C1: for every translation unit made of function definitions in which
exactly one unsupported construct occurs, translation yields one output
declaration per input declaration (the failing one carrying exactly one
placeholder stub), exactly one diagnostic, and the translate-c driver
reports success (EXIT_SUCCESS) after translation regardless of the
diagnostics. -/
theorem decl_failure_isolated (u : CUnit) (f : String) (emit : EmitFileType)
    (objectsLen cSourceFilesLen : Nat)
    (hfn : ∀ d ∈ u.decls, isFnDef d = true)
    (hmac : u.macroDefs = [])
    (hone : totalUnsupported u.decls = 1) :
    (translate_unit u).outputDecls.length = u.decls.length ∧
    (translate_unit u).diagnostics.length = 1 ∧
    stubCount (translate_unit u).outputDecls = 1 ∧
    mainDispatch .cmdTranslateC (some f) emit objectsLen cSourceFilesLen (some u) =
      .translated (translate_unit u).outputDecls (translate_unit u).diagnostics ∧
    exitCode (mainDispatch .cmdTranslateC (some f) emit objectsLen cSourceFilesLen
      (some u)) = 0 := by
  have htu : translate_unit u = u.decls.foldl processDecl initCtx := by
    rw [translate_unit, hmac]
    rfl
  obtain ⟨h1, h2, h3⟩ := processDecls_fnOnly u.decls initCtx hfn
  have hmain : mainDispatch .cmdTranslateC (some f) emit objectsLen
      cSourceFilesLen (some u) =
      .translated (translate_unit u).outputDecls (translate_unit u).diagnostics := by
    simp [mainDispatch, parse_h_file]
  refine ⟨?_, ?_, ?_, hmain, ?_⟩
  · rw [htu, h1]; simp [initCtx]
  · rw [htu, h2, hone]; simp [initCtx]
  · rw [htu, h3, hone]; simp [initCtx, stubCount]
  · rw [hmain]; rfl

/-- Witness for the isolation theorem: a unit of ten function definitions,
one containing a single unsupported jump, yields ten declarations, one
stub and one diagnostic, and the driver exits successfully. -/
theorem decl_failure_isolated_witness :
    ((CUnit.mk
      [.fnDef "f0" [.supported], .fnDef "f1" [.supported],
       .fnDef "f2" [.supported], .fnDef "f3" [.supported],
       .fnDef "f4" [.supported],
       .fnDef "fbad" [.supported, .unsupportedConstruct "jump"],
       .fnDef "f6" [.supported], .fnDef "f7" [.supported],
       .fnDef "f8" [.supported], .fnDef "f9" [.supported]] []).decls.length = 10) ∧
    (translate_unit (CUnit.mk
      [.fnDef "f0" [.supported], .fnDef "f1" [.supported],
       .fnDef "f2" [.supported], .fnDef "f3" [.supported],
       .fnDef "f4" [.supported],
       .fnDef "fbad" [.supported, .unsupportedConstruct "jump"],
       .fnDef "f6" [.supported], .fnDef "f7" [.supported],
       .fnDef "f8" [.supported], .fnDef "f9" [.supported]] [])).outputDecls.length = 10 ∧
    (translate_unit (CUnit.mk
      [.fnDef "f0" [.supported], .fnDef "f1" [.supported],
       .fnDef "f2" [.supported], .fnDef "f3" [.supported],
       .fnDef "f4" [.supported],
       .fnDef "fbad" [.supported, .unsupportedConstruct "jump"],
       .fnDef "f6" [.supported], .fnDef "f7" [.supported],
       .fnDef "f8" [.supported], .fnDef "f9" [.supported]] [])).diagnostics.length = 1 ∧
    stubCount (translate_unit (CUnit.mk
      [.fnDef "f0" [.supported], .fnDef "f1" [.supported],
       .fnDef "f2" [.supported], .fnDef "f3" [.supported],
       .fnDef "f4" [.supported],
       .fnDef "fbad" [.supported, .unsupportedConstruct "jump"],
       .fnDef "f6" [.supported], .fnDef "f7" [.supported],
       .fnDef "f8" [.supported], .fnDef "f9" [.supported]] [])).outputDecls = 1 ∧
    mainDispatch .cmdTranslateC (some "a.h") .emitBinary 0 0 (some (CUnit.mk
      [.fnDef "f0" [.supported], .fnDef "f1" [.supported],
       .fnDef "f2" [.supported], .fnDef "f3" [.supported],
       .fnDef "f4" [.supported],
       .fnDef "fbad" [.supported, .unsupportedConstruct "jump"],
       .fnDef "f6" [.supported], .fnDef "f7" [.supported],
       .fnDef "f8" [.supported], .fnDef "f9" [.supported]] [])) =
      .translated (translate_unit (CUnit.mk
      [.fnDef "f0" [.supported], .fnDef "f1" [.supported],
       .fnDef "f2" [.supported], .fnDef "f3" [.supported],
       .fnDef "f4" [.supported],
       .fnDef "fbad" [.supported, .unsupportedConstruct "jump"],
       .fnDef "f6" [.supported], .fnDef "f7" [.supported],
       .fnDef "f8" [.supported], .fnDef "f9" [.supported]] [])).outputDecls
        (translate_unit (CUnit.mk
      [.fnDef "f0" [.supported], .fnDef "f1" [.supported],
       .fnDef "f2" [.supported], .fnDef "f3" [.supported],
       .fnDef "f4" [.supported],
       .fnDef "fbad" [.supported, .unsupportedConstruct "jump"],
       .fnDef "f6" [.supported], .fnDef "f7" [.supported],
       .fnDef "f8" [.supported], .fnDef "f9" [.supported]] [])).diagnostics := by
  have h := decl_failure_isolated (CUnit.mk
      [.fnDef "f0" [.supported], .fnDef "f1" [.supported],
       .fnDef "f2" [.supported], .fnDef "f3" [.supported],
       .fnDef "f4" [.supported],
       .fnDef "fbad" [.supported, .unsupportedConstruct "jump"],
       .fnDef "f6" [.supported], .fnDef "f7" [.supported],
       .fnDef "f8" [.supported], .fnDef "f9" [.supported]] [])
    "a.h" .emitBinary 0 0 (by decide) rfl (by decide)
  exact ⟨rfl, h.1, h.2.1, h.2.2.1, h.2.2.2.1⟩

/-- Number of emitted record declarations for a given canonical
identity. -/
def recCount (ds : List ODecl) (id : Nat) : Nat :=
  ds.countP fun d =>
    match d with
    | .recordDecl i _ => i = id
    | _ => false

/-- Number of emitted enum declarations for a given canonical identity. -/
def enumCount (ds : List ODecl) (id : Nat) : Nat :=
  ds.countP fun d =>
    match d with
    | .enumDecl i _ => i = id
    | _ => false

/-- Whether the type cache holds an entry for a canonical type. -/
def cacheHas (c : List (CTy × Nat)) (t : CTy) : Bool :=
  (lookupCache c t).isSome

/-- Invariant tying emitted tag declarations to the type cache: every
canonical record/enum identity has exactly one emitted declaration once it
is in the cache and none before. -/
def TagDeclInv (ctx : TransCtx) : Prop :=
  ∀ id : Nat,
    recCount ctx.outputDecls id = (if cacheHas ctx.cache (.record id) then 1 else 0) ∧
    enumCount ctx.outputDecls id = (if cacheHas ctx.cache (.enumTy id) then 1 else 0)

theorem cacheHas_cons (k : CTy) (h : Nat) (c : List (CTy × Nat)) (t : CTy) :
    cacheHas ((k, h) :: c) t = (ctyBeq t k || cacheHas c t) := by
  by_cases hb : ctyBeq t k = true
  · simp [cacheHas, lookupCache, hb]
  · simp only [Bool.not_eq_true] at hb
    simp [cacheHas, lookupCache, hb]

theorem recCount_append (a b : List ODecl) (id : Nat) :
    recCount (a ++ b) id = recCount a id + recCount b id := by
  simp [recCount, List.countP_append]

theorem enumCount_append (a b : List ODecl) (id : Nat) :
    enumCount (a ++ b) id = enumCount a id + enumCount b id := by
  simp [enumCount, List.countP_append]

theorem recCount_rec_singleton (i hh id : Nat) :
    recCount [.recordDecl i hh] id = if i = id then 1 else 0 := by
  by_cases hb : i = id <;> simp [recCount, List.countP_cons, hb]

theorem enumCount_enum_singleton (i hh id : Nat) :
    enumCount [.enumDecl i hh] id = if i = id then 1 else 0 := by
  by_cases hb : i = id <;> simp [enumCount, List.countP_cons, hb]

theorem recCount_enum_singleton (i hh id : Nat) :
    recCount [.enumDecl i hh] id = 0 := by
  simp [recCount, List.countP_cons]

theorem enumCount_rec_singleton (i hh id : Nat) :
    enumCount [.recordDecl i hh] id = 0 := by
  simp [enumCount, List.countP_cons]

theorem ctyBeq_record_record (i j : Nat) :
    ctyBeq (.record i) (.record j) = decide (i = j) := by
  simp [ctyBeq]

theorem ctyBeq_enumTy_enumTy (i j : Nat) :
    ctyBeq (.enumTy i) (.enumTy j) = decide (i = j) := by
  simp [ctyBeq]

theorem TagDeclInv_allocNode (ctx : TransCtx) (key : CTy) (node : TTy)
    (hI : TagDeclInv ctx)
    (hkr : ∀ id, ctyBeq (.record id) key = false)
    (hke : ∀ id, ctyBeq (.enumTy id) key = false) :
    TagDeclInv (allocNode ctx key node).2 := by
  intro id
  obtain ⟨h1, h2⟩ := hI id
  simp only [allocNode]
  constructor
  · simp only [cacheHas_cons, hkr id, Bool.false_or]
    exact h1
  · simp only [cacheHas_cons, hke id, Bool.false_or]
    exact h2

theorem TagDeclInv_allocTagRecord (ctx : TransCtx) (id0 : Nat)
    (hI : TagDeclInv ctx)
    (hmiss : lookupCache ctx.cache (.record id0) = none) :
    TagDeclInv (allocTagPlaceholder ctx (.record id0) id0 true).2 := by
  intro id
  obtain ⟨h1, h2⟩ := hI id
  simp only [allocTagPlaceholder, if_pos rfl, if_true]
  constructor
  · rw [recCount_append, recCount_rec_singleton]
    simp only [cacheHas_cons, ctyBeq_record_record]
    by_cases hid : id = id0
    · subst hid
      have hc : cacheHas ctx.cache (.record id) = false := by
        simp [cacheHas, hmiss]
      rw [hc] at h1
      simp at h1
      simp [h1, hc]
    · have hd : decide (id = id0) = false := by simp [hid]
      rw [hd]
      simp only [Bool.false_or]
      rw [h1]
      have hd2 : (if id0 = id then 1 else 0) = 0 := by
        simp
        exact fun hc => absurd hc.symm hid
      omega
  · rw [enumCount_append, enumCount_rec_singleton]
    have hb : ctyBeq (.enumTy id) (.record id0) = false := rfl
    simp only [cacheHas_cons, hb, Bool.false_or]
    omega

theorem TagDeclInv_allocTagEnum (ctx : TransCtx) (id0 : Nat)
    (hI : TagDeclInv ctx)
    (hmiss : lookupCache ctx.cache (.enumTy id0) = none) :
    TagDeclInv (allocTagPlaceholder ctx (.enumTy id0) id0 false).2 := by
  intro id
  obtain ⟨h1, h2⟩ := hI id
  simp only [allocTagPlaceholder, if_neg Bool.false_ne_true, if_false]
  constructor
  · rw [recCount_append, recCount_enum_singleton]
    have hb : ctyBeq (.record id) (.enumTy id0) = false := rfl
    simp only [cacheHas_cons, hb, Bool.false_or]
    omega
  · rw [enumCount_append, enumCount_enum_singleton]
    simp only [cacheHas_cons, ctyBeq_enumTy_enumTy]
    by_cases hid : id = id0
    · subst hid
      have hc : cacheHas ctx.cache (.enumTy id) = false := by
        simp [cacheHas, hmiss]
      rw [hc] at h2
      simp at h2
      simp [h2, hc]
    · have hd : decide (id = id0) = false := by simp [hid]
      rw [hd]
      simp only [Bool.false_or]
      rw [h2]
      have hd2 : (if id0 = id then 1 else 0) = 0 := by
        simp
        exact fun hc => absurd hc.symm hid
      omega

mutual

theorem translate_type_inv : ∀ (t : CTy) (ctx : TransCtx),
    TagDeclInv ctx → TagDeclInv (translate_type t ctx).2
  | .prim p, ctx, hI => by
    rw [translate_type]
    rcases hl : lookupCache ctx.cache (.prim p) with _ | h
    · simp only [hl]
      exact TagDeclInv_allocNode ctx _ _ hI (fun i => rfl) (fun i => rfl)
    · simp only [hl]
      exact hI
  | .ptr pt c v, ctx, hI => by
    rw [translate_type]
    rcases hl : lookupCache ctx.cache (.ptr pt c v) with _ | h
    · simp only [hl]
      exact TagDeclInv_allocNode _ _ _ (translate_type_inv pt ctx hI)
        (fun i => rfl) (fun i => rfl)
    · simp only [hl]
      exact hI
  | .arr e n, ctx, hI => by
    rw [translate_type]
    rcases hl : lookupCache ctx.cache (.arr e n) with _ | h
    · simp only [hl]
      exact TagDeclInv_allocNode _ _ _ (translate_type_inv e ctx hI)
        (fun i => rfl) (fun i => rfl)
    · simp only [hl]
      exact hI
  | .incompleteArr e, ctx, hI => by
    rw [translate_type]
    rcases hl : lookupCache ctx.cache (.incompleteArr e) with _ | h
    · simp only [hl]
      exact TagDeclInv_allocNode _ _ _ (translate_type_inv e ctx hI)
        (fun i => rfl) (fun i => rfl)
    · simp only [hl]
      exact hI
  | .record id0, ctx, hI => by
    rw [translate_type]
    rcases hl : lookupCache ctx.cache (.record id0) with _ | h
    · simp only [hl]
      exact TagDeclInv_allocTagRecord ctx id0 hI hl
    · simp only [hl]
      exact hI
  | .enumTy id0, ctx, hI => by
    rw [translate_type]
    rcases hl : lookupCache ctx.cache (.enumTy id0) with _ | h
    · simp only [hl]
      exact TagDeclInv_allocTagEnum ctx id0 hI hl
    · simp only [hl]
      exact hI
  | .fn ps ret va, ctx, hI => by
    rw [translate_type]
    rcases hl : lookupCache ctx.cache (.fn ps ret va) with _ | h
    · simp only [hl]
      exact TagDeclInv_allocNode _ _ _
        (translate_type_inv ret _ (translateTypeList_inv ps ctx hI))
        (fun i => rfl) (fun i => rfl)
    · simp only [hl]
      exact hI

theorem translateTypeList_inv : ∀ (ts : List CTy) (ctx : TransCtx),
    TagDeclInv ctx → TagDeclInv (translateTypeList ts ctx).2
  | [], _, hI => hI
  | t :: ts, ctx, hI =>
    translateTypeList_inv ts (translate_type t ctx).2 (translate_type_inv t ctx hI)

end

theorem translateFieldList_inv : ∀ (fs : List (String × CTy)) (ctx : TransCtx),
    TagDeclInv ctx → TagDeclInv (translateFieldList fs ctx).2
  | [], _, hI => hI
  | (fname, fty) :: fs, ctx, hI =>
    translateFieldList_inv fs (translate_type fty ctx).2
      (translate_type_inv fty ctx hI)

theorem processDecl_inv (ctx : TransCtx) (d : CDecl) (hI : TagDeclInv ctx) :
    TagDeclInv (processDecl ctx d) := by
  cases d with
  | recordForward id => exact translate_type_inv (.record id) ctx hI
  | recordDef id fields =>
    have hbody : TagDeclInv (translateFieldList fields
        (translate_type (.record id) ctx).2).2 :=
      translateFieldList_inv fields _ (translate_type_inv (.record id) ctx hI)
    rw [processDecl]
    rcases hlt : lookupTag ctx.tags id with _ | st
    · simp only [hlt]
      exact hbody
    · cases st with
      | forwardDeclared h =>
        simp only [hlt]
        exact hbody
      | definedTag h =>
        simp only [hlt]
        exact hI
  | fnDef fname body =>
    intro id
    obtain ⟨h1, h2⟩ := hI id
    simp only [processDecl]
    constructor
    · have hs : recCount [ODecl.fnDecl fname (translateConstructs body).1] id = 0 := by
        simp [recCount, List.countP_cons]
      rw [recCount_append, hs, Nat.add_zero]
      exact h1
    · have hs : enumCount [ODecl.fnDecl fname (translateConstructs body).1] id = 0 := by
        simp [enumCount, List.countP_cons]
      rw [enumCount_append, hs, Nat.add_zero]
      exact h2
  | varDef vname ty =>
    have hty : TagDeclInv (translate_type ty ctx).2 := translate_type_inv ty ctx hI
    intro id
    obtain ⟨h1, h2⟩ := hty id
    simp only [processDecl]
    constructor
    · have hs : recCount [ODecl.varDecl vname (translate_type ty ctx).1] id = 0 := by
        simp [recCount, List.countP_cons]
      rw [recCount_append, hs, Nat.add_zero]
      exact h1
    · have hs : enumCount [ODecl.varDecl vname (translate_type ty ctx).1] id = 0 := by
        simp [enumCount, List.countP_cons]
      rw [enumCount_append, hs, Nat.add_zero]
      exact h2

theorem translateMacroDef_counts (m : MacroDef) (id : Nat) :
    recCount (translateMacroDef m).1.toList id = 0 ∧
    enumCount (translateMacroDef m).1.toList id = 0 := by
  rcases hp : m.mparams with _ | ps <;> rcases hb : m.mbody with _ | b
  · simp [translateMacroDef, hp, hb, recCount, enumCount]
  · rcases hc : constEval b with _ | v <;>
      simp [translateMacroDef, hp, hb, hc, recCount, enumCount, List.countP_cons]
  · simp [translateMacroDef, hp, hb, recCount, enumCount]
  · by_cases hok : macBodyOk ps.length b = true <;>
      simp [translateMacroDef, hp, hb, hok, recCount, enumCount, List.countP_cons]

theorem processMacroDef_inv (ctx : TransCtx) (m : MacroDef) (hI : TagDeclInv ctx) :
    TagDeclInv (processMacroDef ctx m) := by
  intro id
  obtain ⟨h1, h2⟩ := hI id
  obtain ⟨hm1, hm2⟩ := translateMacroDef_counts m id
  simp only [processMacroDef]
  constructor
  · rw [recCount_append, hm1, Nat.add_zero]
    exact h1
  · rw [enumCount_append, hm2, Nat.add_zero]
    exact h2

theorem processDecls_inv : ∀ (ds : List CDecl) (ctx : TransCtx),
    TagDeclInv ctx → TagDeclInv (ds.foldl processDecl ctx)
  | [], _, hI => hI
  | d :: ds, ctx, hI => processDecls_inv ds _ (processDecl_inv ctx d hI)

theorem processMacroDefs_inv : ∀ (ms : List MacroDef) (ctx : TransCtx),
    TagDeclInv ctx → TagDeclInv (ms.foldl processMacroDef ctx)
  | [], _, hI => hI
  | m :: ms, ctx, hI => processMacroDefs_inv ms _ (processMacroDef_inv ctx m hI)

theorem initCtx_inv : TagDeclInv initCtx := by
  intro id
  constructor <;> rfl

theorem translate_unit_inv (u : CUnit) : TagDeclInv (translate_unit u) :=
  processMacroDefs_inv u.macroDefs _ (processDecls_inv u.decls initCtx initCtx_inv)

/-- C5: within one unit the type cache keyed by canonical-declaration
identity yields at most one translated record/enum declaration per
canonical identity; in the forward-then-define unit for struct S with a
field of type pointer-to-S the output holds exactly one S declaration and
the backpatched record is self-referential through the record's own
handle; and a forward declaration of a canonical identity already in the
cache is a no-op, since canonical identities of repeated forward
declarations compare equal. -/
theorem forward_decl_resolution :
    (∀ (u : CUnit) (id : Nat),
      recCount (translate_unit u).outputDecls id ≤ 1 ∧
      enumCount (translate_unit u).outputDecls id ≤ 1) ∧
    ((translate_unit (CUnit.mk
        [.recordForward 0, .recordDef 0 [("next", .ptr (.record 0) false false)]]
        [])).outputDecls = [.recordDecl 0 0] ∧
     (translate_unit (CUnit.mk
        [.recordForward 0, .recordDef 0 [("next", .ptr (.record 0) false false)]]
        [])).arena = [.recordTy 0 [("next", 1)], .ptrTy 0 false false]) ∧
    (∀ (ctx : TransCtx) (id : Nat),
      cacheHas ctx.cache (.record id) = true →
      processDecl ctx (.recordForward id) = ctx) := by
  refine ⟨?_, ⟨?_, ?_⟩, ?_⟩
  · intro u id
    obtain ⟨h1, h2⟩ := translate_unit_inv u id
    constructor
    · rw [h1]
      split <;> omega
    · rw [h2]
      split <;> omega
  · rfl
  · rfl
  · intro ctx id hc
    obtain ⟨h, hh⟩ := Option.isSome_iff_exists.mp (by simpa [cacheHas] using hc)
    show (translate_type (.record id) ctx).2 = ctx
    rw [translate_type_hit (.record id) ctx h hh]

/-- Witness for the forward-declaration theorem: in a context whose cache
already holds canonical record identity 0, a repeated forward declaration
of identity 0 leaves the context untouched. -/
theorem forward_decl_resolution_witness :
    cacheHas [((CTy.record 0), 0)] (.record 0) = true ∧
    processDecl (TransCtx.mk [((CTy.record 0), 0)] [.placeholderTy 0]
        [(0, .forwardDeclared 0)] [0] [.recordDecl 0 0] [] 0) (.recordForward 0) =
      TransCtx.mk [((CTy.record 0), 0)] [.placeholderTy 0]
        [(0, .forwardDeclared 0)] [0] [.recordDecl 0 0] [] 0 :=
  ⟨rfl, forward_decl_resolution.2.2 _ 0 rfl⟩

/-- Modelled from the spec: a C integer type as a bit width and a
signedness, the data the usual arithmetic conversions depend on. -/
structure CIntTy where
  width : Nat
  signed : Bool
deriving DecidableEq, Repr

/-- The type int: 32 bits, signed. -/
def cIntTy : CIntTy := ⟨32, true⟩

/-- The type short: 16 bits, signed. -/
def cShortTy : CIntTy := ⟨16, true⟩

/-- The type unsigned int: 32 bits, unsigned. -/
def cUIntTy : CIntTy := ⟨32, false⟩

/-- Modelled from the spec: C integer promotion — every type narrower
than int (whose values all fit in int) promotes to int. -/
def promoteTy (t : CIntTy) : CIntTy :=
  if t.width < 32 then cIntTy else t

/-- Modelled from the spec: C usual arithmetic conversions over integer
types (the computation type of a binary arithmetic operation): both
operands are promoted; equal types stay; equal signedness takes the wider
type; mixed signedness takes the unsigned type when its rank is at least
the signed one's, else the signed type, which then represents every value
of the unsigned type. -/
def usualArithConv (a b : CIntTy) : CIntTy :=
  let pa := promoteTy a
  let pb := promoteTy b
  if pa = pb then pa
  else if pa.signed = pb.signed then (if pa.width ≥ pb.width then pa else pb)
  else
    let u := if pa.signed then pb else pa
    let s := if pa.signed then pa else pb
    if u.width ≥ s.width then u else s

/-- Binary arithmetic operators of the modelled expression fragment. -/
inductive BinOp
  | addOp | subOp | mulOp
deriving DecidableEq, Repr

/-- Modelled from the spec: the C expression fragment the arithmetic
claims range over: typed integer literals and variable references, binary
arithmetic, and compound assignment. -/
inductive CExpr
  | intLit (ty : CIntTy) (v : Int)
  | varRef (ty : CIntTy) (vname : String)
  | binE (op : BinOp) (l r : CExpr)
  | compAssign (op : BinOp) (l r : CExpr)

/-- The C type of an expression: binary arithmetic has the converted
type, compound assignment has the type of its left operand. -/
def cexprTy : CExpr → CIntTy
  | .intLit t _ => t
  | .varRef t _ => t
  | .binE _ l r => usualArithConv (cexprTy l) (cexprTy r)
  | .compAssign _ l _ => cexprTy l

/-- Modelled from the spec: the front end's computation-type accessor for
compound assignment (the getComputationLHSType entry point of zig_clang.h
lines 1049-1055): clang computes it as the usual arithmetic conversion of
the operand types. -/
def getComputationLHSType (l r : CExpr) : CIntTy :=
  usualArithConv (cexprTy l) (cexprTy r)

/-- Modelled from the spec: TranslatedExpr (§3) restricted to the
arithmetic fragment; operation nodes carry the computation type distinct
from the result type, and every conversion is an explicit cast. -/
inductive TExpr
  | litT (ty : CIntTy) (v : Int)
  | refT (ty : CIntTy) (vname : String)
  | castT (toTy : CIntTy) (e : TExpr)
  | binT (op : BinOp) (compTy resultTy : CIntTy) (l r : TExpr)
  | compAssignT (op : BinOp) (compTy resultTy : CIntTy) (lhs rhs : TExpr)
deriving DecidableEq, Repr

/-- Modelled from the spec: translate_expr (§4.3) on the arithmetic
fragment: binary arithmetic and compound assignment thread the
computation type obtained from the usual arithmetic conversions, inserting
explicit casts of both operands to the computation type; the result type
of a compound assignment is the stored operand's type. -/
def translate_expr : CExpr → TExpr
  | .intLit t v => .litT t v
  | .varRef t n => .refT t n
  | .binE op l r =>
    let ct := usualArithConv (cexprTy l) (cexprTy r)
    .binT op ct ct (.castT ct (translate_expr l)) (.castT ct (translate_expr r))
  | .compAssign op l r =>
    let ct := getComputationLHSType l r
    .compAssignT op ct (cexprTy l) (translate_expr l) (.castT ct (translate_expr r))

/-- Computation type carried by a translated operation node. -/
def tCompTy : TExpr → Option CIntTy
  | .binT _ c _ _ _ => some c
  | .compAssignT _ c _ _ _ => some c
  | _ => none

/-- Result type carried by a translated operation node. -/
def tResultTy : TExpr → Option CIntTy
  | .binT _ _ rt _ _ => some rt
  | .compAssignT _ _ rt _ _ => some rt
  | _ => none

/-- Reduce an integer to the value range of a C integer type (two's
complement wraparound). -/
def wrapInt (t : CIntTy) (v : Int) : Int :=
  let m : Int := 2 ^ t.width
  let r := v % m
  if t.signed ∧ r ≥ 2 ^ (t.width - 1) then r - m else r

/-- Integer result of one arithmetic operator, before wraparound. -/
def evalBinOp (op : BinOp) (x y : Int) : Int :=
  match op with
  | .addOp => x + y
  | .subOp => x - y
  | .mulOp => x * y

/-- Modelled from the spec: the stored value of a translated compound
assignment: both operands are brought to the computation type, the
operation is performed at the computation type's precision, and the
result is truncated to the stored operand's type on store. -/
def compAssignStoreValue (storeTy compTy : CIntTy) (op : BinOp) (lv rv : Int) : Int :=
  wrapInt storeTy (wrapInt compTy (evalBinOp op (wrapInt compTy lv) (wrapInt compTy rv)))

/-- C3: every translated binary arithmetic and compound-assignment
operation carries the computation type produced by C's usual arithmetic
conversions on the operand types; for compound assignment the result type
is the left operand's own type; in particular a compound assignment on a
short operand computes in int — a distinct type from the result type —
and truncates on store, so short 32767 += 1 stores -32768. -/
theorem computation_type_faithful :
    (∀ (op : BinOp) (l r : CExpr),
      tCompTy (translate_expr (.binE op l r)) =
        some (usualArithConv (cexprTy l) (cexprTy r))) ∧
    (∀ (op : BinOp) (l r : CExpr),
      tCompTy (translate_expr (.compAssign op l r)) =
        some (usualArithConv (cexprTy l) (cexprTy r)) ∧
      tResultTy (translate_expr (.compAssign op l r)) = some (cexprTy l)) ∧
    (usualArithConv cShortTy cShortTy = cIntTy ∧
     usualArithConv cShortTy cIntTy = cIntTy ∧
     cIntTy ≠ cShortTy ∧
     tCompTy (translate_expr (.compAssign .addOp
       (.varRef cShortTy "s") (.intLit cIntTy 1))) = some cIntTy ∧
     tResultTy (translate_expr (.compAssign .addOp
       (.varRef cShortTy "s") (.intLit cIntTy 1))) = some cShortTy ∧
     compAssignStoreValue cShortTy cIntTy .addOp 32767 1 = -32768) := by
  refine ⟨fun op l r => rfl, fun op l r => ⟨rfl, rfl⟩, ?_, ?_, ?_, ?_, ?_, ?_⟩
  · decide
  · decide
  · decide
  · rfl
  · rfl
  · decide

/-- Modelled from the spec: one case group of a C switch as delivered by
the front end: its case label values (empty for the default group), the
default marker, the group body, and the explicit fallthrough marker into
the following group. -/
structure CCaseGroup where
  labels : List Int
  isDefault : Bool
  body : List CConstruct
  fallsThrough : Bool

/-- Modelled from the spec: a C switch statement is its ordered case
group list. -/
structure CSwitchStmt where
  groups : List CCaseGroup

/-- Modelled from the spec: a translated case group preserves labels,
default marker and fallthrough marker verbatim; only the body is
translated. -/
structure TCaseGroup where
  labels : List Int
  isDefault : Bool
  body : List TStmtK
  fallsThrough : Bool
deriving DecidableEq, Repr

/-- Modelled from the spec: a translated switch: the ordered translated
case groups plus the preserved all-enum-cases-covered hint (the
isAllEnumCasesCovered accessor of zig_clang.h lines 1091-1094), kept for
future exhaustiveness but never altering the structure. -/
structure TSwitchStmt where
  groups : List TCaseGroup
  allCasesCoveredHint : Bool
deriving DecidableEq, Repr

/-- Translate one case group. -/
def translateCaseGroup (g : CCaseGroup) : TCaseGroup :=
  ⟨g.labels, g.isDefault, (translateConstructs g.body).1, g.fallsThrough⟩

/-- Modelled from the spec: switch translation (§4.4): case/default
order and explicit fallthrough transitions are preserved verbatim; the
front end's all-enum-cases-covered information is recorded as a hint
only. -/
def translate_switch (sw : CSwitchStmt) (allEnumCasesCovered : Bool) : TSwitchStmt :=
  ⟨sw.groups.map translateCaseGroup, allEnumCasesCovered⟩

/-- Shape of a translated case group list: labels, default marker and
fallthrough marker of every group in order (everything but the bodies and
the hint). -/
def switchShape (gs : List TCaseGroup) : List (List Int × Bool × Bool) :=
  gs.map fun g => (g.labels, g.isDefault, g.fallsThrough)

/-- Shape of a source case group list. -/
def cSwitchShape (gs : List CCaseGroup) : List (List Int × Bool × Bool) :=
  gs.map fun g => (g.labels, g.isDefault, g.fallsThrough)

/-- Indices of the explicit fallthrough edges: group i marked as falling
through transitions into group i+1. -/
def fallthroughEdges (gs : List TCaseGroup) : List Nat :=
  (gs.enum.filter fun p => p.2.fallsThrough).map fun p => p.1

/-- The example switch of the spec: case 1 runs a and falls through into
the group of cases 2 and 3, which runs b; the default runs c. -/
def exampleSwitch : CSwitchStmt :=
  ⟨[⟨[1], false, [.supported], true⟩,
    ⟨[2, 3], false, [.supported], false⟩,
    ⟨[], true, [.supported], false⟩]⟩

/-- C4: switch translation preserves the case/default order and the
explicit fallthrough transitions verbatim — no fallthrough edge is added,
removed, reordered or coalesced — and the all-enum-cases-covered flag
never changes the translated structure; on the example switch with cases
1, (2,3) and default there is exactly one fallthrough edge, from the
case-1 group into the group of cases 2 and 3. -/
theorem switch_fidelity :
    (∀ (sw : CSwitchStmt) (flag : Bool),
      switchShape (translate_switch sw flag).groups = cSwitchShape sw.groups) ∧
    (∀ (sw : CSwitchStmt) (f1 f2 : Bool),
      (translate_switch sw f1).groups = (translate_switch sw f2).groups) ∧
    (∀ flag : Bool,
      fallthroughEdges (translate_switch exampleSwitch flag).groups = [0]) := by
  refine ⟨?_, ?_, ?_⟩
  · intro sw flag
    simp [translate_switch, switchShape, cSwitchShape, translateCaseGroup]
  · intro sw f1 f2
    rfl
  · intro flag
    rfl

/-- C6: when the front end loader produces no AST, parse_h_file returns a
fatal error immediately — the error result carries no partial output
declarations — and when the loader does produce an AST the result is
always the fully translated unit, so the loader failure is the only fatal
failure mode of the modelled engine. -/
theorem front_end_failure_fatal :
    (∀ mode : TranslateMode,
      parse_h_file none mode =
        .error "unable to parse C file: the front end produced no AST") ∧
    (∀ (u : CUnit) (mode : TranslateMode),
      parse_h_file (some u) mode = .ok (translate_unit u)) :=
  ⟨fun _ => rfl, fun _ _ => rfl⟩

/-- C7: the mode flag passed to parse_h_file does not affect any internal
translation decision: for every loader result the two modes produce the
identical output, and only the downstream rendering boundary dispatches on
the mode. -/
theorem mode_independence :
    (∀ loaded : Option CUnit,
      parse_h_file loaded .translateModeImport =
        parse_h_file loaded .translateModeTranslate) ∧
    (∀ ctx : TransCtx,
      renderOutput .translateModeImport ctx =
        .forInlineUse ctx.outputDecls ctx.diagnostics ∧
      renderOutput .translateModeTranslate ctx =
        .forTextualUse ctx.outputDecls ctx.diagnostics) :=
  ⟨fun _ => rfl, fun _ => ⟨rfl, rfl⟩⟩

/-- The macro FOO defined as the object-like constant expression
(1 + 2). -/
def fooMacroDef : MacroDef := ⟨"FOO", none, some (.addE (.litE 1) (.litE 2))⟩

/-- The macro BAR with formal parameter x and body foo(x, x). -/
def barMacroDef : MacroDef :=
  ⟨"BAR", some ["x"], some (.callE "foo" [.paramRef 0, .paramRef 0])⟩

/-- The macro BAZ whose replacement is the line-number builtin. -/
def bazMacroDef : MacroDef := ⟨"BAZ", none, some .builtinLine⟩

theorem translateMacroDef_none_one_diag (m : MacroDef)
    (h : (translateMacroDef m).1 = none) :
    (translateMacroDef m).2.length = 1 := by
  rcases hp : m.mparams with _ | ps
  · rcases hb : m.mbody with _ | b
    · simp [translateMacroDef, hp, hb]
    · rcases hc : constEval b with _ | v
      · simp [translateMacroDef, hp, hb, hc]
      · simp [translateMacroDef, hp, hb, hc] at h
  · rcases hb : m.mbody with _ | b
    · simp [translateMacroDef, hp, hb]
    · by_cases hok : macBodyOk ps.length b = true
      · simp [translateMacroDef, hp, hb, hok] at h
      · simp [translateMacroDef, hp, hb, hok]

/-- C8: the object-like macro FOO = (1 + 2) translates to a constant
declaration whose evaluated value is 3; the function-like macro
BAR(x) = foo(x, x) translates to a function-like declaration whose body
calls foo with the same formal parameter passed twice; the
unrepresentable macro BAZ (the line-number builtin) yields no declaration
and exactly one diagnostic; a unit containing only BAZ still translates
without a fatal error, emitting nothing but that one diagnostic; and in
general every macro that produces no declaration produces exactly one
diagnostic. -/
theorem macro_translation_cases :
    translateMacroDef fooMacroDef = (some (.constDecl "FOO" 3), []) ∧
    translateMacroDef barMacroDef =
      (some (.fnMacroDecl "BAR" ["x"] (.callE "foo" [.paramRef 0, .paramRef 0])), []) ∧
    translateMacroDef bazMacroDef = (none, ["unable to translate macro: BAZ"]) ∧
    (∀ mode : TranslateMode,
      parse_h_file (some (CUnit.mk [] [bazMacroDef])) mode =
        .ok (translate_unit (CUnit.mk [] [bazMacroDef]))) ∧
    ((translate_unit (CUnit.mk [] [bazMacroDef])).outputDecls = [] ∧
     (translate_unit (CUnit.mk [] [bazMacroDef])).diagnostics.length = 1) ∧
    (∀ m : MacroDef, (translateMacroDef m).1 = none →
      (translateMacroDef m).2.length = 1) :=
  ⟨rfl, rfl, rfl, fun _ => rfl, ⟨rfl, rfl⟩,
   fun m h => translateMacroDef_none_one_diag m h⟩

/-- Witness for the macro theorem: the general no-declaration conjunct
applied to the concrete macro BAZ. -/
theorem macro_translation_cases_witness :
    (translateMacroDef bazMacroDef).1 = none ∧
    (translateMacroDef bazMacroDef).2.length = 1 :=
  ⟨rfl, macro_translation_cases.2.2.2.2.2 bazMacroDef rfl⟩

/-- Counterexample to C10 as stated: invoking translate-c with no source
file argument but with an --emit type other than binary trips the earlier
check of main.cpp lines 1063-1065 and prints the emit-related message,
not "Expected source file argument.". -/
theorem translate_c_no_input_counterexample :
    mainDispatch .cmdTranslateC none .emitAssembly 0 0 none =
      .usageError
        "A root source file is required when using `--emit asm` or `--emit llvm-ir`" ∧
    mainDispatch .cmdTranslateC none .emitAssembly 0 0 none ≠
      .usageError "Expected source file argument." := by
  constructor
  · rfl
  · intro hc
    rw [show mainDispatch .cmdTranslateC none .emitAssembly 0 0 none =
      .usageError
        "A root source file is required when using `--emit asm` or `--emit llvm-ir`"
      from rfl] at hc
    exact absurd (MainResult.usageError.inj hc) (by decide)

/-- C10 (amended): every invocation of translate-c with no source file
argument exits with a failure status before constructing any translation
state; with the default emit type (binary) the message printed is
"Expected source file argument.", while a non-default emit type trips the
earlier emit check first. -/
theorem translate_c_no_input_rejected :
    (∀ (objectsLen cSourceFilesLen : Nat) (loaded : Option CUnit),
      mainDispatch .cmdTranslateC none .emitBinary objectsLen cSourceFilesLen
        loaded = .usageError "Expected source file argument.") ∧
    (∀ (emit : EmitFileType) (objectsLen cSourceFilesLen : Nat)
        (loaded : Option CUnit),
      exitCode (mainDispatch .cmdTranslateC none emit objectsLen cSourceFilesLen
        loaded) = 1 ∧
      ranTranslation (mainDispatch .cmdTranslateC none emit objectsLen
        cSourceFilesLen loaded) = false) := by
  constructor
  · intro o c l
    rfl
  · intro emit o c l
    cases emit <;> exact ⟨rfl, rfl⟩

end TranslateC
